import Mathlib

/-!
Verification of the EVA-Voyager-21 rover ground-station decoding core.

The repository is TypeScript/React.  This file gives a shallow embedding of
its decoding logic in Lean 4 and proves properties about it:

* `src/components/Grid20x20.tsx` — the grid "matrix line" decoder
  (`parseMatrixLine`, `applyMatrix`).
* `src/lib/useWebSocketFeed.ts` — the serial-line handler (`handleMessage`):
  console buffering, base64 image reassembly, matrix-line detection.
* `src/App.tsx` — `extractLastImageFromConsole`, the on-read image
  recomputation over the console buffer.
* `src/components/ChartsColumn.tsx` — `normalizeValue` unit scaling.
* `src/components/TelemetryColumn.tsx` — `getField` alias resolution and the
  `fmt`/`fmtScaled100` rendering helpers.

JavaScript strings are modelled as Lean `String`; the JS string methods used
by the source (`split`, `trim`, `startsWith`, `endsWith`, `includes`,
`toLowerCase`) are re-implemented below as executable functions over the
character list so that concrete runs reduce inside the kernel.  JS numbers
are modelled as `ℚ` (the source only scales by 100/1000 and compares;
IEEE-754 rounding is out of scope).
-/

namespace EVA

/-! ### JavaScript string primitives -/

/-- ASCII lower-casing of one character, as done by `toLowerCase` on the
ASCII keys and aliases appearing in the source. -/
def asciiLower (c : Char) : Char :=
  if 'A' ≤ c ∧ c ≤ 'Z' then Char.ofNat (c.toNat + 32) else c

/-- Splitting a character list at every occurrence of the separator;
`acc` is the (reversed) current fragment.  Models `String.prototype.split`
with a one-character separator: `"a,,b".split(",") = ["a","","b"]`. -/
def splitAux (sep : Char) : List Char → List Char → List (List Char)
  | [], acc => [acc.reverse]
  | c :: cs, acc =>
    if c = sep then acc.reverse :: splitAux sep cs []
    else splitAux sep cs (c :: acc)

/-- JS `s.split(sep)` for a one-character separator. -/
def jsSplitChar (s : String) (sep : Char) : List String :=
  (splitAux sep s.toList []).map List.asString

/-- JS `s.trim()`: strip whitespace from both ends. -/
def jsTrim (s : String) : String :=
  ((s.toList.dropWhile Char.isWhitespace).reverse.dropWhile
    Char.isWhitespace).reverse.asString

/-- Whether the first list is a prefix of the second (Boolean). -/
def listPrefixOf : List Char → List Char → Bool
  | [], _ => true
  | _ :: _, [] => false
  | a :: as, b :: bs => a = b && listPrefixOf as bs

/-- JS `s.startsWith(pat)`. -/
def jsStartsWith (s pat : String) : Bool := listPrefixOf pat.toList s.toList

/-- Substring occurrence test on character lists. -/
def containsAux (pat : List Char) : List Char → Bool
  | [] => listPrefixOf pat []
  | c :: cs => listPrefixOf pat (c :: cs) || containsAux pat cs

/-- JS `s.includes(pat)`. -/
def jsIncludes (s pat : String) : Bool := containsAux pat.toList s.toList

/-- JS `s.endsWith(pat)`. -/
def jsEndsWith (s pat : String) : Bool :=
  listPrefixOf pat.toList.reverse s.toList.reverse

/-- JS `s.toLowerCase()` (ASCII range, which covers every key and alias in
the source). -/
def jsToLower (s : String) : String := (s.toList.map asciiLower).asString

/-- JS `Number(ch)` for a single character, restricted to the outcomes the
decoder distinguishes: a decimal digit yields its value, anything else
(yielding `NaN` or a value outside 0–9 in JS) yields `none`, which the
decoder treats as an empty cell exactly as the source does. -/
def charDigit (ch : Char) : Option Nat :=
  if ch.isDigit then some (ch.toNat - 48) else none

/-! ### Grid matrix decoder — `src/components/Grid20x20.tsx` -/

/-- Rover heading, `type Direction = "N" | "E" | "S" | "W"`. -/
inductive Direction : Type
  | N
  | E
  | S
  | W
deriving DecidableEq, Repr

/-- `type RoverPose = { row; col; dir }` (matrix indices, row 0 = top). -/
structure RoverPose : Type where
  row : Nat
  col : Nat
  dir : Direction
deriving DecidableEq, Repr

/-- `type Cell = { visited: boolean; obstacle: boolean }`. -/
structure Cell : Type where
  visited : Bool
  obstacle : Bool
deriving DecidableEq, Repr

/-- `const GRID_ROWS = 10`. -/
def GRID_ROWS : Nat := 10

/-- `const GRID_COLS = 10`. -/
def GRID_COLS : Nat := 10

/-- `const START_ROW = GRID_ROWS - 1` (bottom row). -/
def START_ROW : Nat := GRID_ROWS - 1

/-- `const START_COL = 0` (left column). -/
def START_COL : Nat := 0

/-- `const initialPose = { row: START_ROW, col: START_COL, dir: "N" }`. -/
def initialPose : RoverPose := ⟨START_ROW, START_COL, Direction.N⟩

/-- `createEmptyGrid()`: a 10×10 grid of non-visited, non-obstacle cells. -/
def createEmptyGrid : List (List Cell) :=
  List.replicate GRID_ROWS (List.replicate GRID_COLS ⟨false, false⟩)

/-- `codeToDirection`: `2→N, 3→E, 4→W, 5→S`, default `N`. -/
def codeToDirection (code : Nat) : Direction :=
  match code with
  | 2 => Direction.N
  | 3 => Direction.E
  | 4 => Direction.W
  | 5 => Direction.S
  | _ => Direction.N

/-- The cell built for one character of a row string: obstacle iff the
character is the digit `1` (`if (v === 1) cell.obstacle = true`). -/
def cellOf (ch : Char) : Cell :=
  ⟨false, charDigit ch == some 1⟩

/-- The pose overwrite performed for one character at column `c` of display
row `visualRow`: a digit in 2–5 unconditionally overwrites the running pose
(`roverPose = { row: visualRow, col: c, dir }`), anything else keeps it. -/
def poseUpd (visualRow c : Nat) (ch : Char) (pose : Option RoverPose) :
    Option RoverPose :=
  match charDigit ch with
  | some v =>
    if 2 ≤ v ∧ v ≤ 5 then some ⟨visualRow, c, codeToDirection v⟩ else pose
  | none => pose

/-- The `chars.forEach((ch, c) => …)` loop of `parseMatrixLine`: builds the
cells of one row left to right while threading the running pose through
`poseUpd`.  `c` is the column index of the first remaining character. -/
def scanRow (visualRow : Nat) :
    Nat → List Char → Option RoverPose → List Cell × Option RoverPose
  | _, [], pose => ([], pose)
  | c, ch :: rest, pose =>
    let r := scanRow visualRow (c + 1) rest (poseUpd visualRow c ch pose)
    (cellOf ch :: r.1, r.2)

/-- Processing of one row token at display row `visualRow`: trim it; a
whitespace-only token yields a row of `GRID_COLS` empty cells and leaves the
pose alone (the `if (!trimmed) { …; continue; }` branch), otherwise the
characters are scanned by `scanRow`. -/
def processToken (visualRow : Nat) (rowStr : String)
    (pose : Option RoverPose) : List Cell × Option RoverPose :=
  let trimmed := jsTrim rowStr
  if trimmed = "" then (List.replicate GRID_COLS ⟨false, false⟩, pose)
  else scanRow visualRow 0 trimmed.toList pose

/-- The `for (let visualRow = 0; visualRow < numRows; visualRow++)` loop.
The counter counts the rows still to process: when `k + 1` rows remain the
current display row is `numRows - 1 - k` and the token read is
`rowTokens[k]` (the source computes the same index as
`tokenIndex = numRows - 1 - visualRow`).  The call with `k = numRows`
therefore starts at display row 0 (top), reading `rowTokens[numRows - 1]`
first and `rowTokens[0]` last. -/
def buildRows (rowTokens : List String) (numRows : Nat) :
    Nat → Option RoverPose → List (List Cell) × Option RoverPose
  | 0, pose => ([], pose)
  | k + 1, pose =>
    let r1 := processToken (numRows - 1 - k) (rowTokens.getD k "") pose
    let r2 := buildRows rowTokens numRows k r1.2
    (r1.1 :: r2.1, r2.2)

/-- Result record of `parseMatrixLine`: `{ grid, pose }`. -/
structure ParseResult : Type where
  grid : List (List Cell)
  pose : Option RoverPose
deriving DecidableEq, Repr

/-- `parts.indexOf("M")` — index of the first occurrence, `none` for the
source's `-1`. -/
def firstIndexOf (x : String) : List String → Option Nat
  | [] => none
  | y :: ys => if y = x then some 0 else (firstIndexOf x ys).map (· + 1)

/-- The row tokens of a line: split on `','` and take everything after the
first `"M"` token; `none` when there is no `"M"` token. -/
def rowTokensOfLine (line : String) : Option (List String) :=
  let parts := jsSplitChar line ','
  (firstIndexOf "M" parts).map (fun idxM => parts.drop (idxM + 1))

/-- Decoding of the row tokens after `"M"`: reject an empty token list,
clamp to `GRID_ROWS` rows and run the row loop. -/
def decodeRowTokens (rowTokens : List String) : Option ParseResult :=
  if rowTokens.isEmpty then none
  else
    let numRows := min rowTokens.length GRID_ROWS
    let r := buildRows rowTokens numRows numRows none
    some ⟨r.1, r.2⟩

/-- `parseMatrixLine` of `Grid20x20.tsx`. -/
def parseMatrixLine (line : String) : Option ParseResult :=
  match rowTokensOfLine line with
  | none => none
  | some rowTokens => decodeRowTokens rowTokens

/-- The caller-held state of `Grid20x20`: the grid and pose React state. -/
structure GridState : Type where
  grid : List (List Cell)
  pose : RoverPose
deriving DecidableEq, Repr

/-- `applyMatrix` of `Grid20x20.tsx`: a line that fails to parse is a no-op;
otherwise the grid is replaced wholesale and the pose is replaced only when
the parse produced one (`if (newPose) { …; setPose(newPose); }`). -/
def applyMatrix (s : GridState) (line : String) : GridState :=
  match parseMatrixLine line with
  | none => s
  | some r =>
    { grid := r.grid
      pose := match r.pose with
        | some p => p
        | none => s.pose }

/-! ### The scan order of the pose overwrite, made explicit

`parseMatrixLine` finds the pose by an unconditional overwrite during its
scan.  The following definitions list the rover-digit hits in the exact
order the scan visits them, so that "last match wins" can be stated as a
theorem about `List.getLast?`. -/

/-- Fold that models an unconditional overwrite: the last element of the
list wins, the initial value survives only an empty list. -/
def lastWins {α : Type} (l : List α) (p : Option α) : Option α :=
  l.foldl (fun _ h => some h) p

/-- The rover-digit hits of one row, left to right (column `c` onward). -/
def rowHits (visualRow : Nat) : Nat → List Char → List RoverPose
  | _, [] => []
  | c, ch :: rest =>
    match charDigit ch with
    | some v =>
      if 2 ≤ v ∧ v ≤ 5 then
        ⟨visualRow, c, codeToDirection v⟩ :: rowHits visualRow (c + 1) rest
      else rowHits visualRow (c + 1) rest
    | none => rowHits visualRow (c + 1) rest

/-- The rover-digit hits contributed by one row token. -/
def tokenHits (visualRow : Nat) (rowStr : String) : List RoverPose :=
  let trimmed := jsTrim rowStr
  if trimmed = "" then [] else rowHits visualRow 0 trimmed.toList

/-- All rover-digit hits of the row loop, in the order the loop visits
them: display row 0 first (read from `rowTokens[numRows-1]`), display row
`numRows - 1` last (read from `rowTokens[0]`). -/
def scanHits (rowTokens : List String) (numRows : Nat) : Nat → List RoverPose
  | 0 => []
  | k + 1 =>
    tokenHits (numRows - 1 - k) (rowTokens.getD k "") ++
      scanHits rowTokens numRows k

/-- The hits of a full matrix line, in scan order. -/
def lineScanHits (line : String) : List RoverPose :=
  match rowTokensOfLine line with
  | none => []
  | some rowTokens =>
    let numRows := min rowTokens.length GRID_ROWS
    scanHits rowTokens numRows numRows

/-! ### Helper lemmas about the scan -/

lemma lastWins_cons {α : Type} (x : α) (l : List α) (p : Option α) :
    lastWins (x :: l) p = lastWins l (some x) := rfl

lemma lastWins_append {α : Type} (l₁ l₂ : List α) (p : Option α) :
    lastWins (l₁ ++ l₂) p = lastWins l₂ (lastWins l₁ p) := by
  simp [lastWins, List.foldl_append]

lemma lastWins_eq_getLast {α : Type} :
    ∀ (l : List α) (p : Option α),
      lastWins l p = match l.getLast? with
        | some x => some x
        | none => p := by
  intro l
  induction l with
  | nil => intro p; rfl
  | cons x t ih =>
    intro p
    rw [lastWins_cons, ih (some x)]
    cases t with
    | nil => simp
    | cons y u =>
      rw [List.getLast?_cons_cons]
      cases h : (y :: u).getLast? with
      | none => exact absurd (List.getLast?_eq_none_iff.mp h) (by simp)
      | some z => simp

lemma scanRow_snd (visualRow : Nat) :
    ∀ (chars : List Char) (c : Nat) (p : Option RoverPose),
      (scanRow visualRow c chars p).2 = lastWins (rowHits visualRow c chars) p := by
  intro chars
  induction chars with
  | nil => intro c p; rfl
  | cons ch rest ih =>
    intro c p
    show (scanRow visualRow (c + 1) rest (poseUpd visualRow c ch p)).2 = _
    rw [ih]
    rcases hd : charDigit ch with _ | v
    · simp [rowHits, poseUpd, hd]
    · by_cases hv : 2 ≤ v ∧ v ≤ 5
      · simp [rowHits, poseUpd, hd, hv, lastWins_cons]
      · simp [rowHits, poseUpd, hd, hv]

lemma processToken_snd (visualRow : Nat) (rowStr : String)
    (p : Option RoverPose) :
    (processToken visualRow rowStr p).2 =
      lastWins (tokenHits visualRow rowStr) p := by
  unfold processToken tokenHits
  by_cases h : jsTrim rowStr = ""
  · simp [h, lastWins]
  · simp [h, scanRow_snd]

lemma buildRows_snd (rowTokens : List String) (numRows : Nat) :
    ∀ (k : Nat) (p : Option RoverPose),
      (buildRows rowTokens numRows k p).2 =
        lastWins (scanHits rowTokens numRows k) p := by
  intro k
  induction k with
  | zero => intro p; rfl
  | succ k ih =>
    intro p
    show (buildRows rowTokens numRows k
        (processToken (numRows - 1 - k) (rowTokens.getD k "") p).2).2 = _
    rw [ih, processToken_snd]
    rw [show scanHits rowTokens numRows (k + 1) =
      tokenHits (numRows - 1 - k) (rowTokens.getD k "") ++
        scanHits rowTokens numRows k from rfl]
    rw [lastWins_append]

lemma buildRows_fst_length (rowTokens : List String) (numRows : Nat) :
    ∀ (k : Nat) (p : Option RoverPose),
      (buildRows rowTokens numRows k p).1.length = k := by
  intro k
  induction k with
  | zero => intro p; rfl
  | succ k ih =>
    intro p
    show ((processToken (numRows - 1 - k) (rowTokens.getD k "") p).1 ::
      (buildRows rowTokens numRows k
        (processToken (numRows - 1 - k) (rowTokens.getD k "") p).2).1).length = _
    simp [ih]

/-! ### Claims C1–C3 -/

/-- C1, corrected.  Last-match-wins holds, but the scan iterates rows in the
opposite of the claimed order: the row loop runs `visualRow = 0, 1, …`
reading `rowTokens[numRows-1]` first and `rowTokens[0]` last (the claim says
token[0] first, token[last] last).  The decoded pose is the last rover-digit
hit of `lineScanHits`, which lists hits with the top display row (the last
storage token) first and the bottom display row (token[0]) last, columns
left-to-right within each row. -/
lemma decodeRowTokens_pose (rowTokens : List String) (r : ParseResult)
    (h : decodeRowTokens rowTokens = some r) :
    r.pose = (scanHits rowTokens (min rowTokens.length GRID_ROWS)
      (min rowTokens.length GRID_ROWS)).getLast? := by
  cases rowTokens with
  | nil => exact Option.noConfusion h
  | cons t ts =>
    have h' : (⟨(buildRows (t :: ts) (min (t :: ts).length GRID_ROWS)
        (min (t :: ts).length GRID_ROWS) none).1,
        (buildRows (t :: ts) (min (t :: ts).length GRID_ROWS)
          (min (t :: ts).length GRID_ROWS) none).2⟩ : ParseResult) = r :=
      Option.some.inj h
    rw [← h', buildRows_snd, lastWins_eq_getLast]
    cases (scanHits (t :: ts) (min (t :: ts).length GRID_ROWS)
      (min (t :: ts).length GRID_ROWS)).getLast? <;> rfl

theorem c1_last_match_wins_display_order (line : String) (r : ParseResult)
    (h : parseMatrixLine line = some r) :
    r.pose = (lineScanHits line).getLast? := by
  unfold parseMatrixLine at h
  unfold lineScanHits
  rcases ht : rowTokensOfLine line with _ | rowTokens
  · rw [ht] at h; exact Option.noConfusion h
  · rw [ht] at h; exact decodeRowTokens_pose rowTokens r h

/-- Witness for C1: a line with one rover digit in each of two row tokens.
The scan visits the hit of token[1] (display row 0) first and the hit of
token[0] (display row 1) last, so the pose is `⟨1, 1, E⟩`. -/
theorem c1_witness :
    (lineScanHits "RECV_ROVER_w,M,0300,0020").getLast? =
        some ⟨1, 1, Direction.E⟩ ∧
      (parseMatrixLine "RECV_ROVER_w,M,0300,0020").map ParseResult.pose =
        some (some ⟨1, 1, Direction.E⟩) := by
  refine ⟨by decide, ?_⟩
  cases hp : parseMatrixLine "RECV_ROVER_w,M,0300,0020" with
  | none => exact absurd hp (by decide)
  | some r =>
    rw [Option.map_some', c1_last_match_wins_display_order _ r hp]
    decide

/-- Counterexample for C1 as stated.  For
`"RECV_ROVER_x,M,3000000000,2000000000"` the claimed scan order (token[0]
first, token[last] last) would make the digit `2` of token[1] the last hit,
giving pose `⟨0, 0, N⟩`; the code scans token[1] first and token[0] last,
so the digit `3` of token[0] wins and the pose is `⟨1, 0, E⟩`. -/
theorem c1_counterexample :
    (parseMatrixLine "RECV_ROVER_x,M,3000000000,2000000000").map
        ParseResult.pose = some (some ⟨1, 0, Direction.E⟩) ∧
      some (⟨1, 0, Direction.E⟩ : RoverPose) ≠ some ⟨0, 0, Direction.N⟩ := by
  constructor
  · decide
  · decide

lemma take_getD {α : Type} (d : α) :
    ∀ (l : List α) (n k : Nat), k < n → (l.take n).getD k d = l.getD k d := by
  intro l
  induction l with
  | nil => intro n k _; simp
  | cons x t ih =>
    intro n k h
    cases n with
    | zero => omega
    | succ n =>
      cases k with
      | zero => rfl
      | succ k => simpa using ih n k (by omega)

lemma buildRows_take (ts : List String) (n : Nat) :
    ∀ (k : Nat), k ≤ GRID_ROWS →
      ∀ (p : Option RoverPose),
        buildRows ts n k p = buildRows (ts.take GRID_ROWS) n k p := by
  intro k
  induction k with
  | zero => intro _ p; rfl
  | succ k ih =>
    intro hk p
    simp only [buildRows]
    rw [take_getD "" ts GRID_ROWS k (by omega), ih (by omega)]

lemma decodeRowTokens_take (ts : List String) :
    decodeRowTokens ts = decodeRowTokens (ts.take GRID_ROWS) := by
  cases ts with
  | nil => rfl
  | cons t ts' =>
    have h10 : (t :: ts').take GRID_ROWS = t :: ts'.take 9 := rfl
    have hmin : min ((t :: ts').take GRID_ROWS).length GRID_ROWS =
        min (t :: ts').length GRID_ROWS := by
      simp only [List.length_take, List.length_cons]
      omega
    unfold decodeRowTokens
    rw [if_neg (by simp), if_neg (by rw [h10]; simp), hmin]
    simp only [buildRows_take (t :: ts') (min (t :: ts').length GRID_ROWS)
      (min (t :: ts').length GRID_ROWS) (by omega) none]

/-! ### Claim C2 -/

/-- C2, corrected.  The decoded grid is not padded to 10 rows: for a line
with `N` row tokens after `"M"`, the grid has exactly `min N 10` rows
(tokens beyond the first 10 are ignored — decoding depends only on
`tokens.take GRID_ROWS` — but no empty rows are appended when fewer than 10
tokens arrive). -/
theorem c2_grid_min_rows_no_padding :
    (∀ (line : String) (tokens : List String) (r : ParseResult),
        rowTokensOfLine line = some tokens → parseMatrixLine line = some r →
        r.grid.length = min tokens.length GRID_ROWS) ∧
      ∀ (tokens : List String),
        decodeRowTokens tokens = decodeRowTokens (tokens.take GRID_ROWS) := by
  constructor
  · intro line tokens r ht h
    unfold parseMatrixLine at h
    rw [ht] at h
    cases tokens with
    | nil => exact Option.noConfusion h
    | cons t ts =>
      have h' : (⟨(buildRows (t :: ts) (min (t :: ts).length GRID_ROWS)
          (min (t :: ts).length GRID_ROWS) none).1,
          (buildRows (t :: ts) (min (t :: ts).length GRID_ROWS)
            (min (t :: ts).length GRID_ROWS) none).2⟩ : ParseResult) = r :=
        Option.some.inj h
      rw [← h']
      exact buildRows_fst_length (t :: ts) _ _ none
  · exact decodeRowTokens_take

/-- Witness for C2: the two-token line `"RECV_ROVER_y,M,11,00"` yields a
grid of `min 2 10 = 2` rows. -/
theorem c2_witness :
    (parseMatrixLine "RECV_ROVER_y,M,11,00").map (fun r => r.grid.length) =
      some 2 := by
  cases hp : parseMatrixLine "RECV_ROVER_y,M,11,00" with
  | none => exact absurd hp (by decide)
  | some r =>
    rw [Option.map_some']
    have h := c2_grid_min_rows_no_padding.1 "RECV_ROVER_y,M,11,00"
      ["11", "00"] r (by decide) hp
    exact congrArg some (h.trans (by decide))

/-- Counterexample for C2 as stated: the accepted 2-token line
`"RECV_ROVER_x,M,0000000000,0002000000"` decodes to a grid with 2 rows, not
10 — the `10 − min(N,10)` "empty padded display rows" the claim asserts are
not present in the decoded grid. -/
theorem c2_counterexample :
    (parseMatrixLine "RECV_ROVER_x,M,0000000000,0002000000").map
        (fun r => r.grid.length) = some 2 ∧ (2 : Nat) ≠ 10 := by
  constructor
  · decide
  · decide

/-! ### Claim C3 -/

/-- C3, confirmed.  `"RECV_ROVER_x,M,0000000000,0002000000"` (two row
tokens) decodes to pose `row = 0, col = 3, dir = N`: the last token is the
top display row, and its digit `2` at character index 3 puts the rover at
column 3 facing `N`. -/
theorem c3_example_decode :
    (parseMatrixLine "RECV_ROVER_x,M,0000000000,0002000000").map
      ParseResult.pose = some (some ⟨0, 3, Direction.N⟩) := by decide

/-! ### Claim C8 -/

/-- C8, confirmed.  When a line parses successfully but contains no rover
digit (`r.pose = none`), `applyMatrix` replaces the grid with the newly
decoded one and leaves the caller's pose untouched — it is never reset to a
default. -/
theorem c8_pose_retained (s : GridState) (line : String) (r : ParseResult)
    (h : parseMatrixLine line = some r) (hp : r.pose = none) :
    applyMatrix s line = ⟨r.grid, s.pose⟩ := by
  simp [applyMatrix, h, hp]

/-- Witness for C8: an obstacle-only line replaces the grid but keeps the
previously held pose `⟨2, 3, E⟩`. -/
theorem c8_witness :
    applyMatrix ⟨createEmptyGrid, ⟨2, 3, Direction.E⟩⟩
        "RECV_ROVER_z,M,1000000000" =
      ⟨[Cell.mk false true :: List.replicate 9 (Cell.mk false false)],
        ⟨2, 3, Direction.E⟩⟩ := by
  have hp : parseMatrixLine "RECV_ROVER_z,M,1000000000" =
      some ⟨[Cell.mk false true :: List.replicate 9 (Cell.mk false false)],
        none⟩ := by decide
  exact c8_pose_retained _ _ _ hp rfl

/-! ### Serial-line handler — `src/lib/useWebSocketFeed.ts`

The `serial_in` branch of `handleMessage`, with the coerced line text as
input: the line is always appended to the bounded console log, then the
image-capture state machine runs, and only in the Idle state is the
matrix-line detection evaluated. -/

/-- The console log cap (`if (next.length > 2000) next.splice(0, …)`). -/
def CONSOLE_CAP : Nat := 2000

/-- Keep the last `n` elements, as the `splice(0, len - n)` eviction does. -/
def takeLast {α : Type} (n : Nat) (l : List α) : List α :=
  l.drop (l.length - n)

/-- The state held by `useWebSocketFeed` that the serial path touches:
`consoleLines` (texts only; the paired receipt timestamps never influence
decoding), the `imageCaptureRef` fields `pending` and `chunks`, and the
`lastImageDataUrl` / `lastMatrixLine` states.  `lastImageB64` stores the
emitted base64 payload; the source wraps it as
`data:image/jpeg;base64,<payload>`, a prefix common to every emission. -/
structure FeedState : Type where
  consoleLines : List String
  pending : Bool
  chunks : List String
  lastImageB64 : Option String
  lastMatrixLine : Option String
deriving DecidableEq, Repr

/-- `text.startsWith("RECV_ROVER_") && text.includes(",M,")`. -/
def isMatrixLine (text : String) : Bool :=
  jsStartsWith text "RECV_ROVER_" && jsIncludes text ",M,"

/-- The unconditional console append with FIFO eviction at the cap. -/
def pushConsole (s : FeedState) (text : String) : FeedState :=
  { s with consoleLines := takeLast CONSOLE_CAP (s.consoleLines ++ [text]) }

/-- One `serial_in` line: the new state paired with the image payload
emitted by this step, if any.  Mirrors the source's early-return chain:
START marker, END marker, capture append, matrix detection. -/
def serialStepE (s0 : FeedState) (text : String) : FeedState × Option String :=
  let s := pushConsole s0 text
  if text = "B64_IMAGE_START" then
    ({ s with pending := true, chunks := [] }, none)
  else if text = "B64_IMAGE_END" then
    if s.pending && !s.chunks.isEmpty then
      ({ s with
          pending := false
          chunks := []
          lastImageB64 := some (String.join s.chunks) },
        some (String.join s.chunks))
    else
      ({ s with pending := false, chunks := [] }, none)
  else if s.pending then
    ({ s with chunks := s.chunks ++ [jsTrim text] }, none)
  else if isMatrixLine text then
    ({ s with lastMatrixLine := some text }, none)
  else (s, none)

/-- The state transition alone. -/
def serialStep (s : FeedState) (text : String) : FeedState :=
  (serialStepE s text).1

/-- The initial state of one connection epoch. -/
def initFeed : FeedState := ⟨[], false, [], none, none⟩

/-- Processing a whole sequence of serial lines. -/
def runFeed (s : FeedState) (lines : List String) : FeedState :=
  lines.foldl serialStep s

/-- The image payloads emitted while processing a sequence of serial lines,
in order of emission. -/
def runEmits (s : FeedState) : List String → List String
  | [] => []
  | t :: ts => (serialStepE s t).2.toList ++ runEmits (serialStep s t) ts

/-! ### Helper lemmas about one serial step -/

lemma pushConsole_pending (s : FeedState) (t : String) :
    (pushConsole s t).pending = s.pending := by
  unfold pushConsole
  rfl

lemma pushConsole_chunks (s : FeedState) (t : String) :
    (pushConsole s t).chunks = s.chunks := by
  unfold pushConsole
  rfl

lemma serialStepE_snd (s0 : FeedState) (text : String) :
    (serialStepE s0 text).2 =
      if text = "B64_IMAGE_END" ∧ s0.pending = true ∧ s0.chunks ≠ [] then
        some (String.join s0.chunks)
      else none := by
  by_cases h1 : text = "B64_IMAGE_START"
  · simp [serialStepE, h1]
  · by_cases h2 : text = "B64_IMAGE_END"
    · cases hp : s0.pending
      · simp [serialStepE, pushConsole, h1, h2, hp]
      · cases hc : s0.chunks
        · simp [serialStepE, pushConsole, h1, h2, hp, hc]
        · simp [serialStepE, pushConsole, h1, h2, hp, hc]
    · cases hp : s0.pending
      · cases hm : isMatrixLine text
        · simp [serialStepE, pushConsole, h1, h2, hp, hm]
        · simp [serialStepE, pushConsole, h1, h2, hp, hm]
      · simp [serialStepE, pushConsole, h1, h2, hp]

lemma serialStep_pending (s0 : FeedState) (text : String) :
    (serialStep s0 text).pending =
      if text = "B64_IMAGE_START" then true
      else if text = "B64_IMAGE_END" then false
      else s0.pending := by
  by_cases h1 : text = "B64_IMAGE_START"
  · simp [serialStep, serialStepE, pushConsole, h1]
  · by_cases h2 : text = "B64_IMAGE_END"
    · cases hp : s0.pending
      · simp [serialStep, serialStepE, pushConsole, h1, h2, hp]
      · cases hc : s0.chunks <;>
          simp [serialStep, serialStepE, pushConsole, h1, h2, hp, hc]
    · cases hp : s0.pending
      · cases hm : isMatrixLine text <;>
          simp [serialStep, serialStepE, pushConsole, h1, h2, hp, hm]
      · simp [serialStep, serialStepE, pushConsole, h1, h2, hp]

lemma serialStep_chunks (s0 : FeedState) (text : String) :
    (serialStep s0 text).chunks =
      if text = "B64_IMAGE_START" then []
      else if text = "B64_IMAGE_END" then []
      else if s0.pending then s0.chunks ++ [jsTrim text] else s0.chunks := by
  by_cases h1 : text = "B64_IMAGE_START"
  · simp [serialStep, serialStepE, pushConsole, h1]
  · by_cases h2 : text = "B64_IMAGE_END"
    · cases hp : s0.pending
      · simp [serialStep, serialStepE, pushConsole, h1, h2, hp]
      · cases hc : s0.chunks <;>
          simp [serialStep, serialStepE, pushConsole, h1, h2, hp, hc]
    · cases hp : s0.pending
      · cases hm : isMatrixLine text <;>
          simp [serialStep, serialStepE, pushConsole, h1, h2, hp, hm]
      · simp [serialStep, serialStepE, pushConsole, h1, h2, hp]

/-- Future emissions depend only on the capture state (`pending`,
`chunks`), never on the console log, the last image or the stored matrix
line. -/
lemma runEmits_capture_congr :
    ∀ (rest : List String) (s s' : FeedState),
      s.pending = s'.pending → s.chunks = s'.chunks →
      runEmits s rest = runEmits s' rest := by
  intro rest
  induction rest with
  | nil => intros; rfl
  | cons t ts ih =>
    intro s s' hp hc
    have h1 : (serialStepE s t).2 = (serialStepE s' t).2 := by
      rw [serialStepE_snd, serialStepE_snd, hp, hc]
    have h2 : runEmits (serialStep s t) ts = runEmits (serialStep s' t) ts := by
      refine ih _ _ ?_ ?_
      · rw [serialStep_pending, serialStep_pending, hp]
      · rw [serialStep_chunks, serialStep_chunks, hp, hc]
    rw [show runEmits s (t :: ts) =
        (serialStepE s t).2.toList ++ runEmits (serialStep s t) ts from rfl,
      show runEmits s' (t :: ts) =
        (serialStepE s' t).2.toList ++ runEmits (serialStep s' t) ts from rfl,
      h1, h2]

/-! ### Claim C5 -/

/-- C5, confirmed.  A step emits an image payload exactly when the line is
`"B64_IMAGE_END"` while capturing with at least one accumulated chunk, and
the payload is the concatenation of the (individually trimmed, at push
time) chunks in receipt order; an END always returns to Idle with the chunk
list cleared, emitting nothing when no chunk accumulated.  Feeding
START, `"aGVs"`, `"bG8="`, END emits exactly `"aGVsbG8="`. -/
theorem c5_emission_iff_end_capturing_nonempty :
    (∀ (s : FeedState) (text : String),
        (serialStepE s text).2 =
          if text = "B64_IMAGE_END" ∧ s.pending = true ∧ s.chunks ≠ [] then
            some (String.join s.chunks)
          else none) ∧
      (∀ s : FeedState, (serialStep s "B64_IMAGE_END").pending = false ∧
        (serialStep s "B64_IMAGE_END").chunks = []) ∧
      runEmits initFeed ["B64_IMAGE_START", "aGVs", "bG8=", "B64_IMAGE_END"] =
        ["aGVsbG8="] := by
  refine ⟨serialStepE_snd, ?_, by decide⟩
  intro s
  constructor
  · rw [serialStep_pending, if_neg (by decide), if_pos rfl]
  · rw [serialStep_chunks, if_neg (by decide), if_pos rfl]

/-- Witness for C5: an END in the Capturing state with chunks
`["aGVs", "bG8="]` emits `"aGVsbG8="`. -/
theorem c5_witness :
    (serialStepE ⟨[], true, ["aGVs", "bG8="], none, none⟩
      "B64_IMAGE_END").2 = some "aGVsbG8=" := by
  rw [c5_emission_iff_end_capturing_nonempty.1
    ⟨[], true, ["aGVs", "bG8="], none, none⟩ "B64_IMAGE_END"]
  decide

/-! ### Claim C6 -/

/-- C6, confirmed.  A `"B64_IMAGE_START"` always restarts the capture with
an empty chunk list, and everything emitted afterwards is independent of
whatever partial capture was discarded: two states differing arbitrarily in
their accumulated chunks produce identical emission sequences after a
START.  Concretely, START, `"aaaa"`, START, `"bbbb"`, END emits only
`"bbbb"`. -/
theorem c6_start_discards_partial_capture :
    (∀ s : FeedState, (serialStep s "B64_IMAGE_START").pending = true ∧
        (serialStep s "B64_IMAGE_START").chunks = []) ∧
      (∀ (s s' : FeedState) (rest : List String),
        runEmits (serialStep s "B64_IMAGE_START") rest =
          runEmits (serialStep s' "B64_IMAGE_START") rest) ∧
      runEmits initFeed
          ["B64_IMAGE_START", "aaaa", "B64_IMAGE_START", "bbbb",
            "B64_IMAGE_END"] = ["bbbb"] := by
  have hstart : ∀ s : FeedState,
      (serialStep s "B64_IMAGE_START").pending = true ∧
        (serialStep s "B64_IMAGE_START").chunks = [] := by
    intro s
    constructor
    · rw [serialStep_pending, if_pos rfl]
    · rw [serialStep_chunks, if_pos rfl]
  refine ⟨hstart, ?_, by decide⟩
  intro s s' rest
  exact runEmits_capture_congr rest _ _
    (by rw [(hstart s).1, (hstart s').1]) (by rw [(hstart s).2, (hstart s').2])

/-- Witness for C6: a capture holding the chunk `"LEAK"` is discarded by a
new START; the following capture emits `"aaaa"` alone. -/
theorem c6_witness :
    runEmits (serialStep ⟨[], true, ["LEAK"], none, none⟩ "B64_IMAGE_START")
      ["aaaa", "B64_IMAGE_END"] = ["aaaa"] := by
  rw [c6_start_discards_partial_capture.2.1 ⟨[], true, ["LEAK"], none, none⟩
    initFeed ["aaaa", "B64_IMAGE_END"]]
  decide

/-! ### Claim C7 -/

/-- C7, confirmed.  While capturing, any line other than the exact markers
is appended to the chunk list (trimmed) and nothing else happens: the
stored matrix line, the last image and the pending flag are all unchanged —
matrix-looking lines included, since the capture branch returns before the
matrix detection is reached. -/
theorem c7_capture_shadows_all_rules (s : FeedState) (text : String)
    (hp : s.pending = true) (h1 : text ≠ "B64_IMAGE_START")
    (h2 : text ≠ "B64_IMAGE_END") :
    serialStep s text =
      ⟨takeLast CONSOLE_CAP (s.consoleLines ++ [text]), true,
        s.chunks ++ [jsTrim text], s.lastImageB64, s.lastMatrixLine⟩ := by
  unfold serialStep serialStepE pushConsole
  rw [if_neg h1, if_neg h2]
  simp [hp]

/-- Witness for C7: in the Capturing state, the line
`"RECV_ROVER_q,M,1111111111"` — which the matrix detector would otherwise
accept — becomes a chunk and `lastMatrixLine` stays `none`. -/
theorem c7_witness :
    isMatrixLine "RECV_ROVER_q,M,1111111111" = true ∧
      serialStep ⟨[], true, [], none, none⟩ "RECV_ROVER_q,M,1111111111" =
        ⟨["RECV_ROVER_q,M,1111111111"], true, ["RECV_ROVER_q,M,1111111111"],
          none, none⟩ := by
  refine ⟨by decide, ?_⟩
  rw [c7_capture_shadows_all_rules ⟨[], true, [], none, none⟩
    "RECV_ROVER_q,M,1111111111" rfl (by decide) (by decide)]
  decide

/-! ### On-read image recomputation — `src/App.tsx`

`extractLastImageFromConsole` re-derives the latest complete image block
from the console lines on every render.  Console entries are `{ts, text}`
records whose text `getLineText` extracts; the fold below therefore takes
the texts directly.  Unlike the stateful reassembler it trims each line
before comparing against the markers and skips lines that are blank after
trimming. -/

/-- The loop state of `extractLastImageFromConsole`. -/
structure ExtractState : Type where
  capturing : Bool
  buffer : List String
  lastImage : Option String
deriving DecidableEq, Repr

/-- One console line of the `for (const item of lines)` loop. -/
def extractStep (e : ExtractState) (item : String) : ExtractState :=
  let raw := jsTrim item
  if raw = "" then e
  else if raw = "B64_IMAGE_START" then ⟨true, [], e.lastImage⟩
  else if raw = "B64_IMAGE_END" then
    ⟨false, e.buffer,
      if e.capturing && !e.buffer.isEmpty then some (String.join e.buffer)
      else e.lastImage⟩
  else if e.capturing then ⟨e.capturing, e.buffer ++ [raw], e.lastImage⟩
  else e

/-- The fold over the console from the initial loop state. -/
def extractOf (lines : List String) : ExtractState :=
  lines.foldl extractStep ⟨false, [], none⟩

/-- `extractLastImageFromConsole` of `App.tsx` (the returned base64
payload; `App` then prefixes `data:image/jpeg;base64,` exactly as the
stateful path does). -/
def extractLastImageFromConsole (lines : List String) : Option String :=
  (extractOf lines).lastImage

/-! ### Remaining projections of one serial step -/

lemma serialStep_console (s0 : FeedState) (text : String) :
    (serialStep s0 text).consoleLines =
      takeLast CONSOLE_CAP (s0.consoleLines ++ [text]) := by
  by_cases h1 : text = "B64_IMAGE_START"
  · simp [serialStep, serialStepE, pushConsole, h1]
  · by_cases h2 : text = "B64_IMAGE_END"
    · cases hp : s0.pending
      · simp [serialStep, serialStepE, pushConsole, h1, h2, hp]
      · cases hc : s0.chunks <;>
          simp [serialStep, serialStepE, pushConsole, h1, h2, hp, hc]
    · cases hp : s0.pending
      · cases hm : isMatrixLine text <;>
          simp [serialStep, serialStepE, pushConsole, h1, h2, hp, hm]
      · simp [serialStep, serialStepE, pushConsole, h1, h2, hp]

lemma serialStep_lastImage (s0 : FeedState) (text : String) :
    (serialStep s0 text).lastImageB64 =
      if text = "B64_IMAGE_END" ∧ s0.pending = true ∧ s0.chunks ≠ [] then
        some (String.join s0.chunks)
      else s0.lastImageB64 := by
  by_cases h1 : text = "B64_IMAGE_START"
  · simp [serialStep, serialStepE, pushConsole, h1]
  · by_cases h2 : text = "B64_IMAGE_END"
    · cases hp : s0.pending
      · simp [serialStep, serialStepE, pushConsole, h1, h2, hp]
      · cases hc : s0.chunks <;>
          simp [serialStep, serialStepE, pushConsole, h1, h2, hp, hc]
    · cases hp : s0.pending
      · cases hm : isMatrixLine text <;>
          simp [serialStep, serialStepE, pushConsole, h1, h2, hp, hm]
      · simp [serialStep, serialStepE, pushConsole, h1, h2, hp]

lemma serialStep_lastImage_emit (s0 : FeedState) (text : String) :
    (serialStep s0 text).lastImageB64 =
      lastWins (serialStepE s0 text).2.toList s0.lastImageB64 := by
  rw [serialStep_lastImage, serialStepE_snd]
  by_cases hc : text = "B64_IMAGE_END" ∧ s0.pending = true ∧ s0.chunks ≠ []
  · rw [if_pos hc, if_pos hc]; rfl
  · rw [if_neg hc, if_neg hc]; rfl

/-- The retained image is the most recently emitted payload (or the prior
one when nothing was emitted). -/
lemma runFeed_lastImage :
    ∀ (ls : List String) (s : FeedState),
      (runFeed s ls).lastImageB64 = lastWins (runEmits s ls) s.lastImageB64 := by
  intro ls
  induction ls with
  | nil => intro s; rfl
  | cons t ts ih =>
    intro s
    show (runFeed (serialStep s t) ts).lastImageB64 =
      lastWins ((serialStepE s t).2.toList ++ runEmits (serialStep s t) ts)
        s.lastImageB64
    rw [ih, lastWins_append, serialStep_lastImage_emit]

/-! ### Coupling the two image paths -/

lemma takeLast_of_le {α : Type} (n : Nat) (l : List α) (h : l.length ≤ n) :
    takeLast n l = l := by
  unfold takeLast
  rw [Nat.sub_eq_zero_of_le h, List.drop_zero]

lemma extractOf_append (c : List String) (t : String) :
    extractOf (c ++ [t]) = extractStep (extractOf c) t := by
  unfold extractOf
  rw [List.foldl_append]
  rfl

/-- The coupling invariant between the stateful reassembler and the on-read
recomputation over its own console log. -/
def Agrees (s : FeedState) : Prop :=
  (extractOf s.consoleLines).capturing = s.pending ∧
    (extractOf s.consoleLines).lastImage = s.lastImageB64 ∧
    (s.pending = true → (extractOf s.consoleLines).buffer = s.chunks)

lemma agrees_init : Agrees initFeed := ⟨rfl, rfl, fun _ => rfl⟩

lemma agrees_step (s : FeedState) (text : String) (h : Agrees s)
    (hlen : s.consoleLines.length < CONSOLE_CAP)
    (htrim : jsTrim text = text) (hne : text ≠ "") :
    (serialStep s text).consoleLines = s.consoleLines ++ [text] ∧
      Agrees (serialStep s text) := by
  obtain ⟨hcap, himg, hbuf⟩ := h
  have hcon : (serialStep s text).consoleLines = s.consoleLines ++ [text] := by
    rw [serialStep_console]
    refine takeLast_of_le _ _ ?_
    simp only [List.length_append, List.length_singleton]
    omega
  have hext : extractOf (serialStep s text).consoleLines =
      extractStep (extractOf s.consoleLines) text := by
    rw [hcon, extractOf_append]
  refine ⟨hcon, ?_, ?_, ?_⟩
  · -- capturing component
    rw [hext, serialStep_pending]
    by_cases h1 : text = "B64_IMAGE_START"
    · subst h1; simp [extractStep, htrim]
    · by_cases h2 : text = "B64_IMAGE_END"
      · subst h2; simp [extractStep, htrim, h1]
      · cases hp : s.pending
        · simp [extractStep, htrim, hne, h1, h2, hp, hcap]
        · simp [extractStep, htrim, hne, h1, h2, hp, hcap]
  · -- lastImage component
    rw [hext, serialStep_lastImage]
    by_cases h1 : text = "B64_IMAGE_START"
    · subst h1; simp [extractStep, htrim, himg]
    · by_cases h2 : text = "B64_IMAGE_END"
      · subst h2
        cases hp : s.pending
        · simp [extractStep, htrim, h1, hp, hcap, himg]
        · cases hchunks : s.chunks with
          | nil => simp [extractStep, htrim, h1, hp, hcap, himg,
              hbuf hp, hchunks]
          | cons a as => simp [extractStep, htrim, h1, hp, hcap, himg,
              hbuf hp, hchunks]
      · cases hp : s.pending
        · simp [extractStep, htrim, hne, h1, h2, hp, hcap, himg]
        · simp [extractStep, htrim, hne, h1, h2, hp, hcap, himg]
  · -- buffer component
    rw [hext, serialStep_pending, serialStep_chunks]
    by_cases h1 : text = "B64_IMAGE_START"
    · subst h1; simp [extractStep, htrim]
    · by_cases h2 : text = "B64_IMAGE_END"
      · subst h2; simp [extractStep, htrim, h1]
      · cases hp : s.pending
        · simp [extractStep, htrim, hne, h1, h2, hp, hcap]
        · simp [extractStep, htrim, hne, h1, h2, hp, hcap, hbuf hp]

lemma agrees_run :
    ∀ (ls : List String) (s : FeedState),
      (∀ l ∈ ls, jsTrim l = l ∧ l ≠ "") →
      s.consoleLines.length + ls.length ≤ CONSOLE_CAP →
      Agrees s → Agrees (runFeed s ls) := by
  intro ls
  induction ls with
  | nil => intro s _ _ h; exact h
  | cons t ts ih =>
    intro s hcond hlen h
    have ht := hcond t (List.mem_cons_self t ts)
    have hlt : s.consoleLines.length < CONSOLE_CAP := by
      simp only [List.length_cons] at hlen
      omega
    have hstep := agrees_step s t h hlt ht.1 ht.2
    show Agrees (runFeed (serialStep s t) ts)
    refine ih (serialStep s t)
      (fun l hl => hcond l (List.mem_cons_of_mem t hl)) ?_ hstep.2
    rw [hstep.1]
    simp only [List.length_append, List.length_singleton, List.length_cons,
      List.length_nil] at hlen ⊢
    omega

/-! ### Claim C10 -/

/-- A companion agreement lemma for the special case in which the whole
line sequence still fits in the console buffer: with every line already
whitespace-trimmed and nonempty, the recomputed payload equals the payload
most recently emitted — which is exactly what `lastImageB64` retains, the
last element of the emission sequence.  (The claim itself is settled by
`c10_most_recent_block_agrees` below, which assumes only that the most
recent complete block survives eviction.) -/
lemma extract_agrees_of_all_buffered (ls : List String)
    (hcond : ∀ l ∈ ls, jsTrim l = l ∧ l ≠ "")
    (hlen : ls.length ≤ CONSOLE_CAP) :
    extractLastImageFromConsole ((runFeed initFeed ls).consoleLines) =
        (runFeed initFeed ls).lastImageB64 ∧
      (runFeed initFeed ls).lastImageB64 = (runEmits initFeed ls).getLast? := by
  constructor
  · have h := agrees_run ls initFeed hcond (by simpa [initFeed] using hlen)
      agrees_init
    exact h.2.1
  · rw [runFeed_lastImage, lastWins_eq_getLast]
    cases (runEmits initFeed ls).getLast? <;> rfl

/-- Concrete check of the companion lemma on the canonical block: the
recomputed payload is the emitted one, `"aGVsbG8="`. -/
lemma extract_agrees_of_all_buffered_example :
    extractLastImageFromConsole
        ((runFeed initFeed
          ["B64_IMAGE_START", "aGVs", "bG8=", "B64_IMAGE_END"]).consoleLines) =
      some "aGVsbG8=" := by
  have h := extract_agrees_of_all_buffered
    ["B64_IMAGE_START", "aGVs", "bG8=", "B64_IMAGE_END"]
    (by decide) (by decide)
  exact h.1.trans (by decide)

/-! ### The most recent complete block

To settle C10 under its own proviso — the most recent complete
START…END block is still fully present in the bounded console buffer —
the block structure of a line sequence is made explicit.  A *complete
block* is a `START` marker, one or more marker-free chunk lines, then an
`END` marker (spec §6: "exactly one `B64_IMAGE_START`, one or more
base64-chunk lines, exactly one `B64_IMAGE_END`").  `noEmitFrom` scans a
line list through the marker grammar and is `true` exactly when no image
completes during the scan; `noEmitFrom .idle d = true` therefore says the
tail `d` after a block contains no later complete block, i.e. the block is
the most recent one. -/

/-- The capture phase of the marker grammar: not capturing, capturing with
no chunk yet, capturing with at least one chunk. -/
inductive CaptureMode : Type
  | idle
  | armed
  | loaded
deriving DecidableEq, Repr

/-- Scanning the lines in the given phase, no image ever completes: an
`END` met in the `loaded` phase is exactly a completed block. -/
def noEmitFrom : CaptureMode → List String → Bool
  | _, [] => true
  | m, l :: d =>
    if l = "B64_IMAGE_START" then noEmitFrom CaptureMode.armed d
    else if l = "B64_IMAGE_END" then
      match m with
      | CaptureMode.loaded => false
      | _ => noEmitFrom CaptureMode.idle d
    else
      match m with
      | CaptureMode.idle => noEmitFrom CaptureMode.idle d
      | _ => noEmitFrom CaptureMode.loaded d

lemma noEmitFrom_free_loaded :
    ∀ (c e : List String),
      (∀ l ∈ c, l ≠ "B64_IMAGE_START" ∧ l ≠ "B64_IMAGE_END") →
      noEmitFrom CaptureMode.loaded (c ++ "B64_IMAGE_END" :: e) = false := by
  intro c
  induction c with
  | nil => intro e _; simp [noEmitFrom]
  | cons x t ih =>
    intro e hall
    obtain ⟨hS, hE⟩ := hall x (List.mem_cons_self x t)
    have h1 : noEmitFrom CaptureMode.loaded
        (x :: (t ++ "B64_IMAGE_END" :: e)) =
        noEmitFrom CaptureMode.loaded (t ++ "B64_IMAGE_END" :: e) := by
      simp [noEmitFrom, hS, hE]
    rw [List.cons_append, h1]
    exact ih e (fun y hy => hall y (List.mem_cons_of_mem x hy))

/-- Soundness of `noEmitFrom` as "no complete block": a line list that
contains a complete block (a `START`, one or more marker-free chunk lines,
an `END`) falsifies `noEmitFrom` in every phase, so
`noEmitFrom .idle d = true` certifies that no complete block lies in `d`. -/
lemma noEmitFrom_no_later_block :
    ∀ (a : List String) (m : CaptureMode) (c e : List String), c ≠ [] →
      (∀ l ∈ c, l ≠ "B64_IMAGE_START" ∧ l ≠ "B64_IMAGE_END") →
      noEmitFrom m
        (a ++ "B64_IMAGE_START" :: (c ++ "B64_IMAGE_END" :: e)) = false := by
  intro a
  induction a with
  | nil =>
    intro m c e hc hall
    rw [List.nil_append]
    have h1 : noEmitFrom m
        ("B64_IMAGE_START" :: (c ++ "B64_IMAGE_END" :: e)) =
        noEmitFrom CaptureMode.armed (c ++ "B64_IMAGE_END" :: e) := by
      simp [noEmitFrom]
    rw [h1]
    cases c with
    | nil => exact absurd rfl hc
    | cons x t =>
      obtain ⟨hS, hE⟩ := hall x (List.mem_cons_self x t)
      have h2 : noEmitFrom CaptureMode.armed
          ((x :: t) ++ "B64_IMAGE_END" :: e) =
          noEmitFrom CaptureMode.loaded (t ++ "B64_IMAGE_END" :: e) := by
        rw [List.cons_append]
        simp [noEmitFrom, hS, hE]
      rw [h2]
      exact noEmitFrom_free_loaded t e
        (fun y hy => hall y (List.mem_cons_of_mem x hy))
  | cons x a' ih =>
    intro m c e hc hall
    rw [List.cons_append]
    by_cases hS : x = "B64_IMAGE_START"
    · have h1 : noEmitFrom m (x ::
          (a' ++ "B64_IMAGE_START" :: (c ++ "B64_IMAGE_END" :: e))) =
          noEmitFrom CaptureMode.armed
            (a' ++ "B64_IMAGE_START" :: (c ++ "B64_IMAGE_END" :: e)) := by
        simp [noEmitFrom, hS]
      rw [h1]
      exact ih CaptureMode.armed c e hc hall
    · by_cases hE : x = "B64_IMAGE_END"
      · cases m with
        | loaded => simp [noEmitFrom, hS, hE]
        | idle =>
          have h1 : noEmitFrom CaptureMode.idle (x ::
              (a' ++ "B64_IMAGE_START" :: (c ++ "B64_IMAGE_END" :: e))) =
              noEmitFrom CaptureMode.idle
                (a' ++ "B64_IMAGE_START" :: (c ++ "B64_IMAGE_END" :: e)) := by
            simp [noEmitFrom, hS, hE]
          rw [h1]
          exact ih CaptureMode.idle c e hc hall
        | armed =>
          have h1 : noEmitFrom CaptureMode.armed (x ::
              (a' ++ "B64_IMAGE_START" :: (c ++ "B64_IMAGE_END" :: e))) =
              noEmitFrom CaptureMode.idle
                (a' ++ "B64_IMAGE_START" :: (c ++ "B64_IMAGE_END" :: e)) := by
            simp [noEmitFrom, hS, hE]
          rw [h1]
          exact ih CaptureMode.idle c e hc hall
      · cases m with
        | idle =>
          have h1 : noEmitFrom CaptureMode.idle (x ::
              (a' ++ "B64_IMAGE_START" :: (c ++ "B64_IMAGE_END" :: e))) =
              noEmitFrom CaptureMode.idle
                (a' ++ "B64_IMAGE_START" :: (c ++ "B64_IMAGE_END" :: e)) := by
            simp [noEmitFrom, hS, hE]
          rw [h1]
          exact ih CaptureMode.idle c e hc hall
        | armed =>
          have h1 : noEmitFrom CaptureMode.armed (x ::
              (a' ++ "B64_IMAGE_START" :: (c ++ "B64_IMAGE_END" :: e))) =
              noEmitFrom CaptureMode.loaded
                (a' ++ "B64_IMAGE_START" :: (c ++ "B64_IMAGE_END" :: e)) := by
            simp [noEmitFrom, hS, hE]
          rw [h1]
          exact ih CaptureMode.loaded c e hc hall
        | loaded =>
          have h1 : noEmitFrom CaptureMode.loaded (x ::
              (a' ++ "B64_IMAGE_START" :: (c ++ "B64_IMAGE_END" :: e))) =
              noEmitFrom CaptureMode.loaded
                (a' ++ "B64_IMAGE_START" :: (c ++ "B64_IMAGE_END" :: e)) := by
            simp [noEmitFrom, hS, hE]
          rw [h1]
          exact ih CaptureMode.loaded c e hc hall

/-! ### Runs that emit nothing -/

/-- If the marker scan completes no image, the stateful reassembler emits
nothing, from any state in the corresponding phase (for `loaded`, any
chunk list). -/
lemma runEmits_noEmitFrom :
    ∀ (d : List String),
      (∀ s : FeedState, s.pending = false →
        noEmitFrom CaptureMode.idle d = true → runEmits s d = []) ∧
      (∀ s : FeedState, s.pending = true → s.chunks = [] →
        noEmitFrom CaptureMode.armed d = true → runEmits s d = []) ∧
      (∀ s : FeedState, s.pending = true →
        noEmitFrom CaptureMode.loaded d = true → runEmits s d = []) := by
  intro d
  induction d with
  | nil => exact ⟨fun _ _ _ => rfl, fun _ _ _ _ => rfl, fun _ _ _ => rfl⟩
  | cons l t ih =>
    obtain ⟨ih1, ih2, ih3⟩ := ih
    refine ⟨?_, ?_, ?_⟩
    · intro s hp hno
      show ((serialStepE s l).2.toList ++ runEmits (serialStep s l) t) = []
      rw [serialStepE_snd,
        if_neg (fun hq => by rw [hp] at hq; exact Bool.noConfusion hq.2.1)]
      show runEmits (serialStep s l) t = []
      by_cases hS : l = "B64_IMAGE_START"
      · refine ih2 _ ?_ ?_ ?_
        · rw [serialStep_pending, if_pos hS]
        · rw [serialStep_chunks, if_pos hS]
        · rw [hS] at hno
          simpa [noEmitFrom] using hno
      · by_cases hE : l = "B64_IMAGE_END"
        · refine ih1 _ ?_ ?_
          · rw [serialStep_pending, if_neg hS, if_pos hE]
          · rw [hE] at hno
            simpa [noEmitFrom] using hno
        · refine ih1 _ ?_ ?_
          · rw [serialStep_pending, if_neg hS, if_neg hE]
            exact hp
          · simpa [noEmitFrom, hS, hE] using hno
    · intro s hp hc hno
      show ((serialStepE s l).2.toList ++ runEmits (serialStep s l) t) = []
      rw [serialStepE_snd, if_neg (fun hq => hq.2.2 hc)]
      show runEmits (serialStep s l) t = []
      by_cases hS : l = "B64_IMAGE_START"
      · refine ih2 _ ?_ ?_ ?_
        · rw [serialStep_pending, if_pos hS]
        · rw [serialStep_chunks, if_pos hS]
        · rw [hS] at hno
          simpa [noEmitFrom] using hno
      · by_cases hE : l = "B64_IMAGE_END"
        · refine ih1 _ ?_ ?_
          · rw [serialStep_pending, if_neg hS, if_pos hE]
          · rw [hE] at hno
            simpa [noEmitFrom] using hno
        · refine ih3 _ ?_ ?_
          · rw [serialStep_pending, if_neg hS, if_neg hE]
            exact hp
          · simpa [noEmitFrom, hS, hE] using hno
    · intro s hp hno
      by_cases hS : l = "B64_IMAGE_START"
      · show ((serialStepE s l).2.toList ++ runEmits (serialStep s l) t) = []
        rw [serialStepE_snd,
          if_neg (fun hq => by rw [hS] at hq; exact absurd hq.1 (by decide))]
        show runEmits (serialStep s l) t = []
        refine ih2 _ ?_ ?_ ?_
        · rw [serialStep_pending, if_pos hS]
        · rw [serialStep_chunks, if_pos hS]
        · rw [hS] at hno
          simpa [noEmitFrom] using hno
      · by_cases hE : l = "B64_IMAGE_END"
        · rw [hE] at hno
          exact absurd hno (by simp [noEmitFrom])
        · show ((serialStepE s l).2.toList ++ runEmits (serialStep s l) t) = []
          rw [serialStepE_snd, if_neg (fun hq => hE hq.1)]
          show runEmits (serialStep s l) t = []
          refine ih3 _ ?_ ?_
          · rw [serialStep_pending, if_neg hS, if_neg hE]
            exact hp
          · simpa [noEmitFrom, hS, hE] using hno

/-- The recomputation counterpart: one extraction step at each marker. -/
lemma extractStep_marker_start (e : ExtractState) :
    extractStep e "B64_IMAGE_START" = ⟨true, [], e.lastImage⟩ := by
  have hj : jsTrim "B64_IMAGE_START" = "B64_IMAGE_START" := by decide
  simp [extractStep, hj]

lemma extractStep_marker_end (e : ExtractState) :
    extractStep e "B64_IMAGE_END" =
      ⟨false, e.buffer,
        if e.capturing && !e.buffer.isEmpty then some (String.join e.buffer)
        else e.lastImage⟩ := by
  have hj : jsTrim "B64_IMAGE_END" = "B64_IMAGE_END" := by decide
  simp [extractStep, hj]

/-- While capturing, the recomputation appends every marker-free trimmed
nonempty line to its buffer, exactly as the reassembler does. -/
lemma extractFold_free :
    ∀ (c : List String) (buf : List String) (img : Option String),
      (∀ l ∈ c, jsTrim l = l ∧ l ≠ "" ∧
        l ≠ "B64_IMAGE_START" ∧ l ≠ "B64_IMAGE_END") →
      c.foldl extractStep ⟨true, buf, img⟩ = ⟨true, buf ++ c, img⟩ := by
  intro c
  induction c with
  | nil => intro buf img _; simp
  | cons l t ih =>
    intro buf img hall
    obtain ⟨htr, hne, hS, hE⟩ := hall l (List.mem_cons_self l t)
    have hstep : extractStep ⟨true, buf, img⟩ l = ⟨true, buf ++ [l], img⟩ := by
      simp [extractStep, htr, hne, hS, hE]
    show (t.foldl extractStep (extractStep ⟨true, buf, img⟩ l)) = _
    rw [hstep, ih (buf ++ [l]) img
      (fun x hx => hall x (List.mem_cons_of_mem l hx))]
    simp

/-- If the marker scan completes no image, the recomputation's last image
survives the scan unchanged, from any state in the corresponding phase. -/
lemma extractFold_noEmitFrom :
    ∀ (d : List String), (∀ l ∈ d, jsTrim l = l ∧ l ≠ "") →
      ((∀ e : ExtractState, e.capturing = false →
          noEmitFrom CaptureMode.idle d = true →
          (d.foldl extractStep e).lastImage = e.lastImage) ∧
        (∀ e : ExtractState, e.capturing = true → e.buffer = [] →
          noEmitFrom CaptureMode.armed d = true →
          (d.foldl extractStep e).lastImage = e.lastImage) ∧
        (∀ e : ExtractState, e.capturing = true →
          noEmitFrom CaptureMode.loaded d = true →
          (d.foldl extractStep e).lastImage = e.lastImage)) := by
  intro d
  induction d with
  | nil =>
    intro _
    exact ⟨fun _ _ _ => rfl, fun _ _ _ _ => rfl, fun _ _ _ => rfl⟩
  | cons l t ih =>
    intro hall
    obtain ⟨htr, hne⟩ := hall l (List.mem_cons_self l t)
    obtain ⟨ih1, ih2, ih3⟩ := ih (fun x hx => hall x (List.mem_cons_of_mem l hx))
    refine ⟨?_, ?_, ?_⟩
    · intro e hcap hno
      by_cases hS : l = "B64_IMAGE_START"
      · subst hS
        show (t.foldl extractStep (extractStep e "B64_IMAGE_START")).lastImage = _
        rw [extractStep_marker_start]
        exact ih2 _ rfl rfl (by simpa [noEmitFrom] using hno)
      · by_cases hE : l = "B64_IMAGE_END"
        · subst hE
          show (t.foldl extractStep (extractStep e "B64_IMAGE_END")).lastImage = _
          rw [extractStep_marker_end, show
            (if e.capturing && !e.buffer.isEmpty then
              some (String.join e.buffer) else e.lastImage) = e.lastImage
            from by rw [hcap]; simp]
          exact ih1 _ rfl (by simpa [noEmitFrom] using hno)
        · have hstep : extractStep e l = e := by
            simp [extractStep, htr, hne, hS, hE, hcap]
          show (t.foldl extractStep (extractStep e l)).lastImage = _
          rw [hstep]
          exact ih1 _ hcap (by simpa [noEmitFrom, hS, hE] using hno)
    · intro e hcap hbuf hno
      by_cases hS : l = "B64_IMAGE_START"
      · subst hS
        show (t.foldl extractStep (extractStep e "B64_IMAGE_START")).lastImage = _
        rw [extractStep_marker_start]
        exact ih2 _ rfl rfl (by simpa [noEmitFrom] using hno)
      · by_cases hE : l = "B64_IMAGE_END"
        · subst hE
          show (t.foldl extractStep (extractStep e "B64_IMAGE_END")).lastImage = _
          rw [extractStep_marker_end, show
            (if e.capturing && !e.buffer.isEmpty then
              some (String.join e.buffer) else e.lastImage) = e.lastImage
            from by rw [hbuf]; simp]
          exact ih1 _ rfl (by simpa [noEmitFrom] using hno)
        · have hstep : extractStep e l = ⟨true, e.buffer ++ [l], e.lastImage⟩ := by
            simp [extractStep, htr, hne, hS, hE, hcap]
          show (t.foldl extractStep (extractStep e l)).lastImage = _
          rw [hstep]
          exact ih3 _ rfl (by simpa [noEmitFrom, hS, hE] using hno)
    · intro e hcap hno
      by_cases hS : l = "B64_IMAGE_START"
      · subst hS
        show (t.foldl extractStep (extractStep e "B64_IMAGE_START")).lastImage = _
        rw [extractStep_marker_start]
        exact ih2 _ rfl rfl (by simpa [noEmitFrom] using hno)
      · by_cases hE : l = "B64_IMAGE_END"
        · subst hE
          exact absurd hno (by simp [noEmitFrom])
        · have hstep : extractStep e l = ⟨true, e.buffer ++ [l], e.lastImage⟩ := by
            simp [extractStep, htr, hne, hS, hE, hcap]
          show (t.foldl extractStep (extractStep e l)).lastImage = _
          rw [hstep]
          exact ih3 _ rfl (by simpa [noEmitFrom, hS, hE] using hno)

/-! ### Buffer arithmetic for FIFO eviction -/

lemma takeLast_length_le {α : Type} (n : Nat) (l : List α) :
    (takeLast n l).length ≤ n := by
  unfold takeLast
  rw [List.length_drop]
  omega

lemma takeLast_append {α : Type} (n : Nat) (x m : List α) :
    takeLast n (x ++ m) = takeLast (n - m.length) x ++ takeLast n m := by
  unfold takeLast
  rw [List.length_append]
  by_cases h : m.length ≤ n
  · have h1 : x.length + m.length - n ≤ x.length := by omega
    rw [List.drop_append_of_le_length h1]
    have h2 : m.length - n = 0 := by omega
    have h3 : x.length + m.length - n = x.length - (n - m.length) := by omega
    rw [h2, h3, List.drop_zero]
  · have h2 : n - m.length = 0 := by omega
    have h3 : x.length + m.length - n = x.length + (m.length - n) := by omega
    rw [h3, List.drop_append, h2, Nat.sub_zero, List.drop_length,
      List.nil_append]

lemma takeLast_takeLast {α : Type} (k n : Nat) (l : List α) :
    takeLast k (takeLast n l) = takeLast (min k n) l := by
  unfold takeLast
  rw [List.length_drop, List.drop_drop]
  congr 1
  omega

lemma takeLast_append_takeLast {α : Type} (n : Nat) (x y : List α) :
    takeLast n (takeLast n x ++ y) = takeLast n (x ++ y) := by
  have hm : min (n - y.length) n = n - y.length := by omega
  rw [takeLast_append, takeLast_append, takeLast_takeLast, hm]

lemma runFeed_cons (s : FeedState) (t : String) (ts : List String) :
    runFeed s (t :: ts) = runFeed (serialStep s t) ts := by
  unfold runFeed
  rw [List.foldl_cons]

lemma runFeed_append (s : FeedState) (x y : List String) :
    runFeed s (x ++ y) = runFeed (runFeed s x) y := by
  unfold runFeed
  rw [List.foldl_append]

/-- The console after a run is the last `CONSOLE_CAP` lines of everything
appended — FIFO eviction composed over the whole stream. -/
lemma runFeed_console :
    ∀ (ls : List String) (s : FeedState),
      s.consoleLines.length ≤ CONSOLE_CAP →
      (runFeed s ls).consoleLines = takeLast CONSOLE_CAP (s.consoleLines ++ ls) := by
  intro ls
  induction ls with
  | nil =>
    intro s h
    show s.consoleLines = _
    rw [List.append_nil, takeLast_of_le _ _ h]
  | cons t ts ih =>
    intro s _
    show (runFeed (serialStep s t) ts).consoleLines = _
    rw [ih (serialStep s t)
        (by rw [serialStep_console]; exact takeLast_length_le _ _),
      serialStep_console, takeLast_append_takeLast]
    congr 1
    simp

/-! ### Running one complete block -/

/-- While capturing, the reassembler appends every marker-free trimmed
line as a chunk; the pending flag and the retained image are untouched. -/
lemma runFeed_free :
    ∀ (c : List String) (s : FeedState), s.pending = true →
      (∀ l ∈ c, jsTrim l = l ∧ l ≠ "B64_IMAGE_START" ∧ l ≠ "B64_IMAGE_END") →
      (runFeed s c).pending = true ∧
        (runFeed s c).chunks = s.chunks ++ c ∧
        (runFeed s c).lastImageB64 = s.lastImageB64 := by
  intro c
  induction c with
  | nil =>
    intro s hp _
    exact ⟨hp, (List.append_nil s.chunks).symm, rfl⟩
  | cons l t ih =>
    intro s hp hall
    obtain ⟨htr, hS, hE⟩ := hall l (List.mem_cons_self l t)
    have hp' : (serialStep s l).pending = true := by
      rw [serialStep_pending, if_neg hS, if_neg hE]
      exact hp
    have hc' : (serialStep s l).chunks = s.chunks ++ [l] := by
      rw [serialStep_chunks, if_neg hS, if_neg hE, if_pos hp, htr]
    have hi' : (serialStep s l).lastImageB64 = s.lastImageB64 := by
      rw [serialStep_lastImage, if_neg (fun hq => hE hq.1)]
    have h3 := ih (serialStep s l) hp'
      (fun x hx => hall x (List.mem_cons_of_mem l hx))
    refine ⟨?_, ?_, ?_⟩
    · rw [runFeed_cons]
      exact h3.1
    · rw [runFeed_cons, h3.2.1, hc', List.append_assoc]
      rfl
    · rw [runFeed_cons, h3.2.2, hi']

/-- The stateful reassembler, run from any state over a complete block
followed by a block-free tail, retains the block's payload. -/
lemma runFeed_block :
    ∀ (p c d : List String) (s : FeedState), c ≠ [] →
      (∀ l ∈ c, jsTrim l = l ∧ l ≠ "B64_IMAGE_START" ∧ l ≠ "B64_IMAGE_END") →
      noEmitFrom CaptureMode.idle d = true →
      (runFeed s
          (p ++ "B64_IMAGE_START" :: (c ++ "B64_IMAGE_END" :: d))).lastImageB64 =
        some (String.join c) := by
  intro p c d s hc hcfree hlast
  rw [runFeed_append, runFeed_cons, runFeed_append, runFeed_cons]
  have hS1p : (serialStep (runFeed s p) "B64_IMAGE_START").pending = true := by
    rw [serialStep_pending, if_pos rfl]
  have hS1c : (serialStep (runFeed s p) "B64_IMAGE_START").chunks = [] := by
    rw [serialStep_chunks, if_pos rfl]
  have h2 := runFeed_free c (serialStep (runFeed s p) "B64_IMAGE_START")
    hS1p hcfree
  have hchunks2 :
      (runFeed (serialStep (runFeed s p) "B64_IMAGE_START") c).chunks = c := by
    rw [h2.2.1, hS1c, List.nil_append]
  have hEndImg : (serialStep
      (runFeed (serialStep (runFeed s p) "B64_IMAGE_START") c)
      "B64_IMAGE_END").lastImageB64 = some (String.join c) := by
    rw [serialStep_lastImage,
      if_pos ⟨rfl, h2.1, by rw [hchunks2]; exact hc⟩, hchunks2]
  have hEndP : (serialStep
      (runFeed (serialStep (runFeed s p) "B64_IMAGE_START") c)
      "B64_IMAGE_END").pending = false := by
    rw [serialStep_pending, if_neg (by decide), if_pos rfl]
  rw [runFeed_lastImage, (runEmits_noEmitFrom d).1 _ hEndP hlast]
  exact hEndImg

/-- The on-read recomputation, over any console that ends with a complete
block followed by a block-free trimmed tail, returns the block's payload —
whatever truncated prefix `p` the eviction left in front. -/
lemma extract_block :
    ∀ (p c d : List String), c ≠ [] →
      (∀ l ∈ c, jsTrim l = l ∧ l ≠ "" ∧
        l ≠ "B64_IMAGE_START" ∧ l ≠ "B64_IMAGE_END") →
      (∀ l ∈ d, jsTrim l = l ∧ l ≠ "") →
      noEmitFrom CaptureMode.idle d = true →
      extractLastImageFromConsole
          (p ++ "B64_IMAGE_START" :: (c ++ "B64_IMAGE_END" :: d)) =
        some (String.join c) := by
  intro p c d hc hcfree hwd hlast
  have hemp : c.isEmpty = false := by
    cases c with
    | nil => exact absurd rfl hc
    | cons x t => rfl
  unfold extractLastImageFromConsole extractOf
  rw [List.foldl_append, List.foldl_cons, extractStep_marker_start,
    List.foldl_append, extractFold_free c [] _ hcfree, List.nil_append,
    List.foldl_cons,
    show extractStep
        ⟨true, c, (p.foldl extractStep ⟨false, [], none⟩).lastImage⟩
        "B64_IMAGE_END" = ⟨false, c, some (String.join c)⟩ from by
      rw [extractStep_marker_end]
      simp [hemp]]
  exact (extractFold_noEmitFrom d hwd).1 ⟨false, c, some (String.join c)⟩
    rfl hlast

/-! ### Claim C10 -/

/-- C10, corrected (amended form).  For a sequence of serial lines, each
already whitespace-trimmed and nonempty, whose most recent complete
START…END block — a `START`, the chunk lines `c` (one or more, none a
marker), an `END`, followed by a tail `d` in which no further block
completes (`noEmitFrom .idle d`, see `noEmitFrom_no_later_block`) — is
still fully present in the bounded console buffer
(`2 + c.length + d.length ≤ CONSOLE_CAP`), the payload recomputed on read
by `extractLastImageFromConsole` over the console lines equals the payload
most recently emitted by the stateful reassembler: both are the block's
chunk concatenation, however many earlier lines FIFO eviction has
dropped.  Without the trimmed/nonempty proviso the two paths genuinely
diverge (see the counterexample). -/
theorem c10_most_recent_block_agrees (a c d : List String)
    (hw : ∀ l ∈ a ++ "B64_IMAGE_START" :: (c ++ "B64_IMAGE_END" :: d),
      jsTrim l = l ∧ l ≠ "")
    (hc : c ≠ [])
    (hfree : ∀ l ∈ c, l ≠ "B64_IMAGE_START" ∧ l ≠ "B64_IMAGE_END")
    (hlast : noEmitFrom CaptureMode.idle d = true)
    (hfit : 2 + c.length + d.length ≤ CONSOLE_CAP) :
    extractLastImageFromConsole
        ((runFeed initFeed
          (a ++ "B64_IMAGE_START" :: (c ++ "B64_IMAGE_END" :: d))).consoleLines) =
        (runFeed initFeed
          (a ++ "B64_IMAGE_START" :: (c ++ "B64_IMAGE_END" :: d))).lastImageB64 ∧
      (runFeed initFeed
          (a ++ "B64_IMAGE_START" :: (c ++ "B64_IMAGE_END" :: d))).lastImageB64 =
        some (String.join c) := by
  have hwc : ∀ l ∈ c, jsTrim l = l ∧ l ≠ "B64_IMAGE_START" ∧
      l ≠ "B64_IMAGE_END" :=
    fun l hl => ⟨(hw l (by simp [hl])).1, (hfree l hl).1, (hfree l hl).2⟩
  have hwc' : ∀ l ∈ c, jsTrim l = l ∧ l ≠ "" ∧ l ≠ "B64_IMAGE_START" ∧
      l ≠ "B64_IMAGE_END" :=
    fun l hl => ⟨(hw l (by simp [hl])).1, (hw l (by simp [hl])).2,
      (hfree l hl).1, (hfree l hl).2⟩
  have hwd : ∀ l ∈ d, jsTrim l = l ∧ l ≠ "" := fun l hl => hw l (by simp [hl])
  have himg := runFeed_block a c d initFeed hc hwc hlast
  have hlenm : ("B64_IMAGE_START" :: (c ++ "B64_IMAGE_END" :: d)).length ≤
      CONSOLE_CAP := by
    simp only [List.length_cons, List.length_append]
    omega
  have hcon : (runFeed initFeed
      (a ++ "B64_IMAGE_START" :: (c ++ "B64_IMAGE_END" :: d))).consoleLines =
      takeLast (CONSOLE_CAP -
          ("B64_IMAGE_START" :: (c ++ "B64_IMAGE_END" :: d)).length) a ++
        "B64_IMAGE_START" :: (c ++ "B64_IMAGE_END" :: d) := by
    have h0 : initFeed.consoleLines.length ≤ CONSOLE_CAP := by
      simp [initFeed]
    rw [runFeed_console _ initFeed h0]
    have h1 : initFeed.consoleLines ++
        (a ++ "B64_IMAGE_START" :: (c ++ "B64_IMAGE_END" :: d)) =
        a ++ "B64_IMAGE_START" :: (c ++ "B64_IMAGE_END" :: d) := by
      simp [initFeed]
    rw [h1]
    rw [takeLast_append,
      takeLast_of_le CONSOLE_CAP
        ("B64_IMAGE_START" :: (c ++ "B64_IMAGE_END" :: d)) hlenm]
  refine ⟨?_, himg⟩
  rw [hcon, himg]
  exact extract_block _ c d hc hwc' hwd hlast

/-- Witness for C10: `"x"`, START, `"aGVs"`, `"bG8="`, END, `"tail"` — the
recomputation over the resulting console yields the emitted payload
`"aGVsbG8="`. -/
theorem c10_block_witness :
    extractLastImageFromConsole
        ((runFeed initFeed
          (["x"] ++ "B64_IMAGE_START" ::
            (["aGVs", "bG8="] ++ "B64_IMAGE_END" :: ["tail"]))).consoleLines) =
      some "aGVsbG8=" := by
  have h := c10_most_recent_block_agrees ["x"] ["aGVs", "bG8="] ["tail"]
    (by decide) (by decide) (by decide) (by decide) (by decide)
  rw [h.1, h.2]
  decide

/-- Counterexample for C10 as stated: after `START`, a whitespace-only
line, `END` — a complete block fully present in the console — the stateful
reassembler keeps the blank line as an empty trimmed chunk and emits the
empty payload, while the recomputation skips the blank line and emits
nothing. -/
theorem c10_counterexample :
    (runFeed initFeed ["B64_IMAGE_START", " ", "B64_IMAGE_END"]).lastImageB64 =
        some "" ∧
      extractLastImageFromConsole
          ((runFeed initFeed
            ["B64_IMAGE_START", " ", "B64_IMAGE_END"]).consoleLines) = none ∧
      some "" ≠ (none : Option String) := by
  refine ⟨by decide, by decide, by decide⟩

/-! ### Field resolver — `getField` of `TelemetryColumn`

A telemetry record is modelled as an association list in the JS object's
key order; JS object keys are unique, so first-match lookup coincides with
property access.  The source's case-insensitive and separator-stripped
passes build a `Map` from normalized key to real key by iterating the keys
in order — later keys overwrite earlier ones, so the map resolves a
normalized key to the **last** record key normalizing to it. -/

/-- The record's keys, in object order (`Object.keys(obj)`). -/
def objKeys {α : Type} (obj : List (String × α)) : List String :=
  obj.map Prod.fst

/-- Pass (a): `for (const n of names) if (n in obj) return obj[n]`. -/
def passExact {α : Type} (obj : List (String × α)) (names : List String) :
    Option α :=
  names.findSome? (fun n => obj.lookup n)

/-- Lookup through the lower-cased key map
(`lower.set(k.toLowerCase(), k)` over the keys in order, so the last
matching key wins, then `obj[real]`). -/
def mapGetLower {α : Type} (obj : List (String × α)) (n : String) :
    Option α :=
  match ((objKeys obj).filter
      (fun k => jsToLower k == jsToLower n)).getLast? with
  | some real => obj.lookup real
  | none => none

/-- Pass (b): first alias with a case-insensitive match. -/
def passLower {α : Type} (obj : List (String × α)) (names : List String) :
    Option α :=
  names.findSome? (fun n => mapGetLower obj n)

/-- `norm`: lower-case and strip whitespace, underscores and hyphens
(`s.toLowerCase().replace(/[\s_\-]+/g, "")`). -/
def normKey (s : String) : String :=
  ((jsToLower s).toList.filter
    (fun c => !(c.isWhitespace || c == '_' || c == '-'))).asString

/-- Lookup through the separator-stripped key map (same last-wins map
construction as the lower-cased one). -/
def mapGetNorm {α : Type} (obj : List (String × α)) (n : String) :
    Option α :=
  match ((objKeys obj).filter
      (fun k => normKey k == normKey n)).getLast? with
  | some real => obj.lookup real
  | none => none

/-- Pass (c): first alias with a separator-stripped match. -/
def passNorm {α : Type} (obj : List (String × α)) (names : List String) :
    Option α :=
  names.findSome? (fun n => mapGetNorm obj n)

/-- `getField` of `TelemetryColumn`: the three passes in order, each run
across the entire alias list before the next is tried; no match at all
yields `undefined`. -/
def getField {α : Type} (obj : List (String × α)) (names : List String) :
    Option α :=
  match passExact obj names with
  | some v => some v
  | none =>
    match passLower obj names with
    | some v => some v
    | none => passNorm obj names

/- The alias table rows of `NAMES` used by the claims. -/
namespace NAMES

/-- `temp1: ["Temp 1", "Temp1", "temp1", "temperature1", "t1"]`. -/
def temp1 : List String := ["Temp 1", "Temp1", "temp1", "temperature1", "t1"]

/-- `vEsp: ["V Esp", "V_Esp", "v_esp", "esp_v", "v_bus", "v_batt", "vbatt"]`. -/
def vEsp : List String :=
  ["V Esp", "V_Esp", "v_esp", "esp_v", "v_bus", "v_batt", "vbatt"]

end NAMES

/-! ### Unit scaling

`normalizeValue` of `ChartsColumn` (the chart path) and the numeric content
of `fmt` / `fmtScaled100` of `TelemetryColumn` (the panel path).  Values
are `ℚ`; `fmt(v, unit)` renders `toNumberOrUndefined(v).toFixed(2)` with a
unit suffix, so its numeric content is the resolved value unscaled, while
`fmtScaled100` divides by 100 first. -/

/-- `normalizeValue(key, raw)` of `ChartsColumn.tsx`. -/
def normalizeValue (key : String) (raw : ℚ) : ℚ :=
  let k := jsToLower key
  if jsIncludes k "temp" || k == "t1" || k == "t2" then raw / 100
  else if jsIncludes k "hum" then raw / 100
  else if k == "v" || jsIncludes k "volt" || jsIncludes k "vbatt" ||
      jsIncludes k "vbus" || jsStartsWith k "v_" || jsEndsWith k "_v" then
    raw / 1000
  else if k == "i" || jsIncludes k "current" || jsStartsWith k "i_" ||
      jsEndsWith k "_i" then raw / 1000
  else if k == "p" || jsIncludes k "power" || jsEndsWith k "_w" ||
      jsIncludes k "mw" then raw / 1000
  else raw

/-- Numeric content of `fmt(v, unit)`: the value, unscaled. -/
def fmtValue (v : Option ℚ) : Option ℚ := v

/-- Numeric content of `fmtScaled100(v, unit)`: the value divided by 100. -/
def fmtScaled100Value (v : Option ℚ) : Option ℚ := v.map (fun n => n / 100)

/-! ### Claim C4 -/

/-- C4, corrected (amended form).  Temperature and humidity are divided by
100 in both paths (`fmtScaled100` in the telemetry panel, `normalizeValue`
in the charts), and `{"Temp 1": 2845}` indeed renders the temperature as
`28.45`.  However voltage/current/power are divided by 1000 only in the
chart path: the telemetry panel renders them through plain `fmt` with
milli-unit labels (mV/mA/mW), passing the resolved value through
unscaled.  Other categories (distances) pass through unscaled in both
paths. -/
theorem c4_unit_scaling_split (x : ℚ) :
    normalizeValue "temp1" x = x / 100 ∧
      normalizeValue "hum1" x = x / 100 ∧
      normalizeValue "v" x = x / 1000 ∧
      normalizeValue "i" x = x / 1000 ∧
      normalizeValue "power" x = x / 1000 ∧
      normalizeValue "dist1" x = x ∧
      fmtScaled100Value (getField [("Temp 1", (2845 : ℚ))] NAMES.temp1) =
        some 28.45 ∧
      ∀ y : ℚ, fmtValue (getField [("V Esp", y)] NAMES.vEsp) = some y := by
  refine ⟨rfl, rfl, rfl, rfl, rfl, rfl, ?_, fun y => rfl⟩
  show some ((2845 : ℚ) / 100) = some 28.45
  norm_num

/-- Witness for C4 (amended): `normalizeValue` scales the chart voltage
key `"v"` by 1/1000 at the concrete value 5000. -/
theorem c4_witness : normalizeValue "v" 5000 = 5000 / 1000 :=
  (c4_unit_scaling_split 5000).2.2.1

/-- Counterexample for C4 as stated: the telemetry panel renders
`{"V Esp": 5000}` as `5000` (labelled mV) — the voltage value reaches the
rendering undivided, not as `5000 / 1000 = 5`. -/
theorem c4_counterexample :
    fmtValue (getField [("V Esp", (5000 : ℚ))] NAMES.vEsp) = some 5000 ∧
      some (5000 : ℚ) ≠ some ((5000 : ℚ) / 1000) := by
  refine ⟨rfl, ?_⟩
  intro h
  have h5 : (5000 : ℚ) = 5000 / 1000 := Option.some.inj h
  norm_num at h5

/-! ### Claim C9 -/

/-- C9, confirmed.  `getField` runs its three passes each to completion
over the whole alias list before relaxing (an exact match on a later alias
beats a case-insensitive match on an earlier one), within a pass the first
alias in table order wins, and no match across all three passes yields
`undefined`.  In particular a record containing both keys `"v"` and
`"V Esp"` resolves the voltage aliases to the `"V Esp"` value — the first
alias of the table — in either record order. -/
theorem c9_three_pass_resolution :
    (∀ (α : Type) (obj : List (String × α)) (names : List String) (v : α),
        passExact obj names = some v → getField obj names = some v) ∧
      (∀ (α : Type) (obj : List (String × α)) (names : List String) (v : α),
        passExact obj names = none → passLower obj names = some v →
        getField obj names = some v) ∧
      (∀ (α : Type) (obj : List (String × α)) (names : List String),
        passExact obj names = none → passLower obj names = none →
        getField obj names = passNorm obj names) ∧
      (∀ v1 v2 : ℚ,
        getField [("TEMP1", v1), ("t1", v2)] ["temp1", "t1"] = some v2) ∧
      (∀ v1 v2 : ℚ,
        getField [("v", v1), ("V Esp", v2)] NAMES.vEsp = some v2 ∧
          getField [("V Esp", v2), ("v", v1)] NAMES.vEsp = some v2) ∧
      ∀ v : ℚ, getField [("rssi", v)] NAMES.vEsp = none := by
  refine ⟨?_, ?_, ?_, ?_, ?_, ?_⟩
  · intro α obj names v h
    unfold getField
    rw [h]
  · intro α obj names v h1 h2
    unfold getField
    rw [h1, h2]
  · intro α obj names h1 h2
    unfold getField
    rw [h1, h2]
  · intro v1 v2; rfl
  · intro v1 v2; exact ⟨rfl, rfl⟩
  · intro v; rfl

/-- Witness for C9: an exact match on the alias `"t1"` resolves (the
exact-pass hypothesis discharged at a concrete record), and with both
`"v"` and `"V Esp"` present the voltage category resolves to the
`"V Esp"` value. -/
theorem c9_witness :
    getField [("t1", (7 : ℚ))] ["temp1", "t1"] = some 7 ∧
      getField [("v", (1 : ℚ)), ("V Esp", (2 : ℚ))] NAMES.vEsp = some 2 :=
  ⟨c9_three_pass_resolution.1 ℚ [("t1", 7)] ["temp1", "t1"] 7 rfl,
    (c9_three_pass_resolution.2.2.2.2.1 1 2).1⟩

end EVA
